import Mathlib

/-!
Verification of the message store and response formatter of `actix-posts`
(`src/handler/data.rs` and `src/handler/api.rs`).

The store is file-backed: every operation reads the whole collection from
`data.json`, transforms it, and (for mutations) writes the whole collection
back.  We embed the parsed collection as a `List Message` and the backing
file as a `FileState` that is either missing, unreadable/malformed, or a
parsed collection; each Rust function becomes a pure function of that state.

Rust's `String` ordering (`Ord` on `str`) compares UTF-8 bytes, which for
valid UTF-8 coincides with lexicographic order on the code points, i.e. with
the order on `String.data : List Char`.  `Vec::sort_by` is a stable sort;
a stable sort's output is uniquely determined by the comparator, so we model
it with the stable `List.insertionSort` from Mathlib.
-/

namespace ActixPosts

/-- The `Message` struct of `src/handler/data.rs`: id (i32), posted, sender
and content.  Ids are embedded as `Int`; the store's operations only compare
ids for equality, except for `create`'s i32 increment, which is modelled
with the explicit two's-complement wrap `wrap32` below. -/
structure Message where
  id : Int
  posted : String
  sender : String
  content : String
deriving DecidableEq, Repr

/-- Rust's derived `Default` for `Message`: zero id, empty strings. -/
def Message.default : Message :=
  { id := 0, posted := "", sender := "", content := "" }

/-- Abstract state of the backing file `data.json`: missing/unreadable,
present but not parseable as a JSON array of messages, or parsed. -/
inductive FileState where
  | missing
  | malformed
  | parsed (msgs : List Message)

/-- `read_messages_from_file` (data.rs:63): `read_to_string(..).ok()
.and_then(|d| from_str(..).ok()).unwrap_or_default()` — any failure yields
the empty vector, otherwise the parsed collection. -/
def read_messages_from_file : FileState → List Message
  | .missing => []
  | .malformed => []
  | .parsed msgs => msgs

/-- The comparator of `get_all`'s `sort_by(|a, b| b.posted.cmp(&a.posted))`
in non-strict form: `a` may precede `b` iff `cmp(a, b) ≠ Greater`, i.e.
iff `a.posted` is not strictly below `b.posted`. -/
def postedGe (a b : Message) : Prop :=
  ¬ a.posted.data < b.posted.data

instance : DecidableRel postedGe :=
  fun a b => inferInstanceAs (Decidable ¬ (a.posted.data < b.posted.data))

/-- `get_all` (data.rs:90): read the collection, stable-sort it by `posted`
descending. -/
def get_all (fs : FileState) : List Message :=
  List.insertionSort postedGe (read_messages_from_file fs)

/-- `get` (data.rs:118): first message whose id matches, else
`Message::default()`. -/
def get (fs : FileState) (mid : Int) : Message :=
  ((read_messages_from_file fs).find? (fun m => m.id == mid)).getD Message.default

/-- Two's-complement wrap into the i32 range: the value a Rust release
build stores for an i32 expression that overflows (a debug build panics
instead of producing a value, so no other value is ever stored). -/
def wrap32 (n : Int) : Int :=
  (n + 2147483648) % 4294967296 - 2147483648

/-- `create` (data.rs:160): read the collection, compute the maximum id
(`unwrap_or_default`, i.e. `0` when empty), overwrite the candidate's id
with the i32 increment `max + 1` — which wraps at i32::MAX, hence the
explicit `wrap32` — push, write back, and return the pushed record.
Result is (the persisted collection, the returned record). -/
def create (fs : FileState) (message : Message) : List Message × Message :=
  let messages := read_messages_from_file fs
  let mx := ((messages.map Message.id).max?).getD 0
  let stored : Message := { message with id := wrap32 (mx + 1) }
  (messages ++ [stored], stored)

/-- `update` (data.rs:202): read the collection; if some position holds a
message with the given id, replace it in place and write back, otherwise
leave the collection untouched. -/
def update (fs : FileState) (message : Message) : List Message :=
  let messages := read_messages_from_file fs
  match messages.findIdx? (fun m => m.id == message.id) with
  | some index => messages.set index message
  | none => messages

/-- `remove` (data.rs:243): read the collection, retain the messages whose
id differs, write back. -/
def remove (fs : FileState) (mid : Int) : List Message :=
  (read_messages_from_file fs).filter (fun item => item.id != mid)

/-- The `ResponseContent` enum of `src/handler/api.rs`. -/
inductive ResponseContent where
  | Items (msgs : List Message)
  | Item (msg : Message)
  | Reason (text : String)
  | None
deriving DecidableEq, Repr

/-- The `ApiResponse` envelope of `src/handler/api.rs`. -/
structure ApiResponse where
  status : String
  result : ResponseContent
deriving DecidableEq, Repr

/-- Which serialization `build_response` chose for the envelope. -/
inductive SerializedBody where
  | json (response : ApiResponse)
  | xml (response : ApiResponse)
deriving DecidableEq, Repr

/-- `build_response` (api.rs:109): `format.map(|f| match f { "xml" => xml,
_ => json }).unwrap_or(json)`. -/
def build_response (format : Option String) (response : ApiResponse) : SerializedBody :=
  (format.map (fun f =>
    match f with
    | "xml" => SerializedBody.xml response
    | _ => SerializedBody.json response)).getD (SerializedBody.json response)

/-- `api_update` (api.rs:168): destructure the body message, call
`data::update`, and answer with status "OK" and the echoed message,
serialized with `format = Some("json")`. -/
def api_update (fs : FileState) (params : Message) : List Message × SerializedBody :=
  let message : Message :=
    { id := params.id, posted := params.posted, sender := params.sender,
      content := params.content }
  (update fs message,
   build_response (some "json") { status := "OK", result := ResponseContent.Item message })

/-- The id sequence `1, 2, …, n` produced by `n` successive creates. -/
def idSeq (n : Nat) : List Int :=
  (List.range n).map (fun (i : Nat) => (i : Int) + 1)

/-- Iterate `create`: run each candidate through `create`, persisting the
result between calls, and return the final collection. -/
def createAll (fs : FileState) : List Message → List Message
  | [] => read_messages_from_file fs
  | m :: ms => createAll (FileState.parsed (create fs m).1) ms

/-- The id invariant of the spec: all ids unique and positive. -/
def goodIds (store : List Message) : Prop :=
  (store.map Message.id).Nodup ∧ ∀ m ∈ store, 0 < m.id

instance : DecidablePred goodIds :=
  fun store =>
    inferInstanceAs (Decidable ((store.map Message.id).Nodup ∧ ∀ m ∈ store, 0 < m.id))

/-- C3: reading the backing store never fails: a missing/unreadable file and
malformed content both give the empty collection, a parsed file gives its
collection. -/
theorem read_messages_total :
    read_messages_from_file FileState.missing = [] ∧
    read_messages_from_file FileState.malformed = [] ∧
    ∀ msgs : List Message, read_messages_from_file (FileState.parsed msgs) = msgs :=
  ⟨rfl, rfl, fun _ => rfl⟩

lemma max?_le_of_mem {l : List Int} {mx b : Int} (h : l.max? = some mx) (hb : b ∈ l) :
    b ≤ mx :=
  (List.max?_le_iff (fun _ _ _ => max_le_iff) h).mp le_rfl b hb

lemma max?_mem_int {l : List Int} {mx : Int} (h : l.max? = some mx) : mx ∈ l :=
  List.max?_mem (fun a b => max_choice a b) h

lemma idSeq_succ (n : Nat) : idSeq (n + 1) = idSeq n ++ [(n : Int) + 1] := by
  simp [idSeq, List.range_succ]

lemma idSeq_max? (n : Nat) : (idSeq (n + 1)).max? = some ((n : Int) + 1) := by
  cases h : (idSeq (n + 1)).max? with
  | none =>
      have hnil : idSeq (n + 1) = [] := List.max?_eq_none_iff.mp h
      have hlen : (idSeq (n + 1)).length = n + 1 := by
        rw [idSeq, List.length_map, List.length_range]
      rw [hnil] at hlen
      simp at hlen
  | some mx =>
      have hmem := max?_mem_int h
      have hub : ((n : Int) + 1) ≤ mx := by
        apply max?_le_of_mem h
        rw [idSeq]
        exact List.mem_map.mpr ⟨n, List.mem_range.mpr (Nat.lt_succ_self n), rfl⟩
      have hlb : mx ≤ (n : Int) + 1 := by
        rw [idSeq] at hmem
        obtain ⟨i, hi, rfl⟩ := List.mem_map.mp hmem
        have hi' : i < n + 1 := List.mem_range.mp hi
        omega
      rw [le_antisymm hlb hub]

lemma wrap32_eq_self {n : Int} (h1 : -2147483648 ≤ n) (h2 : n ≤ 2147483647) :
    wrap32 n = n := by
  unfold wrap32
  omega

lemma create_fst (fs : FileState) (msg : Message) :
    (create fs msg).1 =
      read_messages_from_file fs ++
        [{ msg with
             id := wrap32 ((((read_messages_from_file fs).map Message.id).max?).getD 0 + 1) }] :=
  rfl

lemma create_snd_id (fs : FileState) (msg : Message) :
    (create fs msg).2.id =
      wrap32 ((((read_messages_from_file fs).map Message.id).max?).getD 0 + 1) :=
  rfl

lemma createAll_idSeq :
    ∀ (msgs store : List Message) (n : Nat), store.map Message.id = idSeq n →
      n + msgs.length ≤ 2147483647 →
      (createAll (FileState.parsed store) msgs).map Message.id = idSeq (n + msgs.length)
  | [], store, n, h, _ => by simpa [createAll, read_messages_from_file] using h
  | m :: ms, store, n, h, hbound => by
      have hstep : ((create (FileState.parsed store) m).1).map Message.id = idSeq (n + 1) := by
        rw [create_fst]
        simp only [read_messages_from_file, List.map_append, List.map_cons, List.map_nil, h]
        cases n with
        | zero => decide
        | succ k =>
            rw [idSeq_max?]
            simp only [Option.getD_some]
            have hb : k + 2 ≤ 2147483647 := by
              simp only [List.length_cons] at hbound
              omega
            have hw : wrap32 ((k : Int) + 1 + 1) = (k : Int) + 1 + 1 :=
              wrap32_eq_self (by omega) (by omega)
            rw [hw, idSeq_succ (k + 1)]
            congr 2
      have hbound' : (n + 1) + ms.length ≤ 2147483647 := by
        simp only [List.length_cons] at hbound
        omega
      have := createAll_idSeq ms (create (FileState.parsed store) m).1 (n + 1) hstep hbound'
      simp only [createAll, List.length_cons]
      rw [this]
      congr 1
      omega

/-- C1 counterexample: at a stored maximum id of i32::MAX (2147483647) the
i32 increment of `create` overflows; the release build stores the wrapped
id -2147483648 instead of max + 1 (a debug build panics). -/
theorem create_overflow_counterexample :
    ((([{ id := 2147483647, posted := "a", sender := "b", content := "c" }] :
        List Message).map Message.id).max? = some 2147483647) ∧
    (create (FileState.parsed
        [{ id := 2147483647, posted := "a", sender := "b", content := "c" }])
      { id := 0, posted := "x", sender := "y", content := "z" }).2.id = -2147483648 ∧
    (create (FileState.parsed
        [{ id := 2147483647, posted := "a", sender := "b", content := "c" }])
      { id := 0, posted := "x", sender := "y", content := "z" }).2.id ≠ 2147483647 + 1 := by
  decide

/-- C1 (amended): provided every stored id is i32-representable and below
i32::MAX — so the i32 increment cannot overflow — `create` assigns id
`max(existing ids) + 1` (or `1` on an empty collection), keeps the
candidate's `posted`/`sender`/`content`, appends the stored record to the
persisted collection and returns it; iterating `create` from an empty store
yields the ids `1, 2, 3, …` for up to i32::MAX calls. -/
theorem create_assigns_next_id (fs : FileState) (msg : Message)
    (hids : ∀ m ∈ read_messages_from_file fs, -2147483648 ≤ m.id ∧ m.id < 2147483647) :
    (read_messages_from_file fs = [] → (create fs msg).2.id = 1) ∧
    (∀ mx : Int, ((read_messages_from_file fs).map Message.id).max? = some mx →
      (create fs msg).2.id = mx + 1) ∧
    (create fs msg).2.posted = msg.posted ∧
    (create fs msg).2.sender = msg.sender ∧
    (create fs msg).2.content = msg.content ∧
    (create fs msg).1 = read_messages_from_file fs ++ [(create fs msg).2] ∧
    (∀ msgs : List Message, msgs.length ≤ 2147483647 →
      (createAll (FileState.parsed []) msgs).map Message.id = idSeq msgs.length) := by
  refine ⟨?_, ?_, rfl, rfl, rfl, rfl, ?_⟩
  · intro h
    rw [create_snd_id, h]
    decide
  · intro mx h
    rw [create_snd_id, h]
    simp only [Option.getD_some]
    obtain ⟨m, hm, hid⟩ := List.mem_map.mp (max?_mem_int h)
    have hb := hids m hm
    exact wrap32_eq_self (by omega) (by omega)
  · intro msgs hlen
    simpa using createAll_idSeq msgs [] 0 (by simp [idSeq]) (by omega)

/-- Witness for C1: on the empty store the created id is `1`; on a store
whose single record has id `3` the created id is `4`; two creates from the
empty store produce exactly the ids `1, 2`. -/
theorem create_assigns_next_id_witness :
    (create (FileState.parsed [])
        { id := 7, posted := "p", sender := "s", content := "c" }).2.id = 1 ∧
    (create (FileState.parsed [{ id := 3, posted := "a", sender := "b", content := "c" }])
        { id := 0, posted := "x", sender := "y", content := "z" }).2.id = 4 ∧
    (createAll (FileState.parsed [])
        [{ id := 7, posted := "p", sender := "s", content := "c" },
         { id := 9, posted := "q", sender := "t", content := "d" }]).map Message.id =
      idSeq 2 :=
  ⟨(create_assigns_next_id _ _ (by decide)).1 rfl,
   (create_assigns_next_id
       (FileState.parsed [{ id := 3, posted := "a", sender := "b", content := "c" }])
       { id := 0, posted := "x", sender := "y", content := "z" } (by decide)).2.1 3 rfl,
   (create_assigns_next_id (FileState.parsed [])
       { id := 0, posted := "x", sender := "y", content := "z" } (by decide)).2.2.2.2.2.2
     [{ id := 7, posted := "p", sender := "s", content := "c" },
      { id := 9, posted := "q", sender := "t", content := "d" }] (by decide)⟩

lemma set_get_self {α : Type _} :
    ∀ (l : List α) (i : Nat) (h : i < l.length), l.set i (l.get ⟨i, h⟩) = l
  | _ :: _, 0, _ => rfl
  | a :: t, i + 1, h => by
      show a :: t.set i (t.get ⟨i, Nat.lt_of_succ_lt_succ h⟩) = a :: t
      rw [set_get_self t i (Nat.lt_of_succ_lt_succ h)]

lemma maxId_not_mem (ids : List Int) : (ids.max?.getD 0) + 1 ∉ ids := by
  intro hmem
  cases h : ids.max? with
  | none =>
      rw [List.max?_eq_none_iff.mp h] at hmem
      simp at hmem
  | some mx =>
      rw [h] at hmem
      simp only [Option.getD_some] at hmem
      have := max?_le_of_mem h hmem
      omega

lemma maxId_pos (store : List Message) (hpos : ∀ m ∈ store, 0 < m.id) :
    0 < ((store.map Message.id).max?.getD 0) + 1 := by
  cases h : (store.map Message.id).max? with
  | none => simp
  | some mx =>
      have hmem := max?_mem_int h
      obtain ⟨m, hm, hid⟩ := List.mem_map.mp hmem
      have := hpos m hm
      simp only [Option.getD_some]
      omega

lemma goodIds_create (store : List Message) (msg : Message) (h : goodIds store)
    (hsafe : ∀ m ∈ store, m.id < 2147483647) :
    goodIds (create (FileState.parsed store) msg).1 := by
  obtain ⟨hnodup, hpos⟩ := h
  have hwrap : wrap32 ((((store.map Message.id).max?).getD 0) + 1) =
      (((store.map Message.id).max?).getD 0) + 1 := by
    cases hm : (store.map Message.id).max? with
    | none =>
        simp only [Option.getD_none]
        exact wrap32_eq_self (by omega) (by omega)
    | some mx =>
        obtain ⟨m, hmmem, hid⟩ := List.mem_map.mp (max?_mem_int hm)
        have h1 := hpos m hmmem
        have h2 := hsafe m hmmem
        simp only [Option.getD_some]
        exact wrap32_eq_self (by omega) (by omega)
  rw [create_fst]
  simp only [read_messages_from_file]
  rw [hwrap]
  constructor
  · rw [List.map_append, List.nodup_append]
    refine ⟨hnodup, List.nodup_singleton _, ?_⟩
    intro b hb hmem
    simp only [List.map_cons, List.map_nil, List.mem_singleton] at hmem
    rw [hmem] at hb
    exact maxId_not_mem (store.map Message.id) hb
  · intro m hm
    rcases List.mem_append.mp hm with hm | hm
    · exact hpos m hm
    · rw [List.mem_singleton.mp hm]
      exact maxId_pos store hpos

lemma update_of_no_match (fs : FileState) (msg : Message)
    (h : ∀ m ∈ read_messages_from_file fs, m.id ≠ msg.id) :
    update fs msg = read_messages_from_file fs := by
  have hidx : (read_messages_from_file fs).findIdx? (fun m => m.id == msg.id) = none := by
    rw [List.findIdx?_eq_none_iff]
    intro x hx
    simpa using h x hx
  simp only [update]
  rw [hidx]

lemma update_of_first_match (fs : FileState) (msg : Message) (i : Nat)
    (h : i < (read_messages_from_file fs).length)
    (hmatch : ((read_messages_from_file fs).get ⟨i, h⟩).id = msg.id)
    (hfirst : ∀ j (hj : j < i),
      ((read_messages_from_file fs).get ⟨j, Nat.lt_trans hj h⟩).id ≠ msg.id) :
    update fs msg = (read_messages_from_file fs).set i msg := by
  have hidx : (read_messages_from_file fs).findIdx? (fun m => m.id == msg.id) = some i := by
    rw [List.findIdx?_eq_some_iff_getElem]
    refine ⟨h, by simpa using hmatch, ?_⟩
    intro j hj
    simpa using hfirst j hj
  simp only [update]
  rw [hidx]

lemma update_map_id (fs : FileState) (msg : Message) :
    (update fs msg).map Message.id = (read_messages_from_file fs).map Message.id := by
  cases hidx : (read_messages_from_file fs).findIdx? (fun m => m.id == msg.id) with
  | none =>
      simp only [update]
      rw [hidx]
  | some i =>
      obtain ⟨h, hp, -⟩ := List.findIdx?_eq_some_iff_getElem.mp hidx
      have hid : msg.id = ((read_messages_from_file fs).get ⟨i, h⟩).id := by
        have := of_decide_eq_true (by simpa using hp)
        simp_all
      simp only [update]
      rw [hidx, List.map_set, hid]
      have : ((read_messages_from_file fs).get ⟨i, h⟩).id =
          ((read_messages_from_file fs).map Message.id).get
            ⟨i, by simpa using h⟩ := by
        simp
      rw [this, set_get_self]

lemma goodIds_update (store : List Message) (msg : Message) (h : goodIds store) :
    goodIds (update (FileState.parsed store) msg) := by
  obtain ⟨hnodup, hpos⟩ := h
  constructor
  · rw [update_map_id]
    exact hnodup
  · intro m hm
    cases hidx : store.findIdx? (fun x => x.id == msg.id) with
    | none =>
        have hupd : update (FileState.parsed store) msg = store := by
          simp only [update, read_messages_from_file]
          rw [hidx]
        rw [hupd] at hm
        exact hpos m hm
    | some i =>
        obtain ⟨hlt, hp, -⟩ := List.findIdx?_eq_some_iff_getElem.mp hidx
        have hupd : update (FileState.parsed store) msg = store.set i msg := by
          simp only [update, read_messages_from_file]
          rw [hidx]
        rw [hupd] at hm
        rcases List.mem_or_eq_of_mem_set hm with hm | hm
        · exact hpos m hm
        · rw [hm]
          have hid : msg.id = store[i].id := by
            have := of_decide_eq_true (by simpa using hp)
            simp_all
          rw [hid]
          exact hpos _ (store.getElem_mem hlt)

lemma remove_sublist (fs : FileState) (rid : Int) :
    List.Sublist (remove fs rid) (read_messages_from_file fs) :=
  List.filter_sublist _

lemma goodIds_remove (store : List Message) (rid : Int) (h : goodIds store) :
    goodIds (remove (FileState.parsed store) rid) := by
  obtain ⟨hnodup, hpos⟩ := h
  constructor
  · exact List.Nodup.sublist ((remove_sublist (FileState.parsed store) rid).map Message.id)
      hnodup
  · intro m hm
    exact hpos m (List.mem_of_mem_filter hm)

/-- C2 as stated is false on the code: starting from a store with ids
`{1, 2}`, removing the record with id `2` and then calling `create` assigns
the deleted id `2` to the new record. -/
theorem removed_id_reused_counterexample :
    ((2 : Int) ∈ (([{ id := 1, posted := "a", sender := "b", content := "c" },
        { id := 2, posted := "d", sender := "e", content := "f" }] : List Message).map
          Message.id)) ∧
    ((2 : Int) ∉ ((remove (FileState.parsed
        [{ id := 1, posted := "a", sender := "b", content := "c" },
         { id := 2, posted := "d", sender := "e", content := "f" }]) 2).map Message.id)) ∧
    (create (FileState.parsed (remove (FileState.parsed
        [{ id := 1, posted := "a", sender := "b", content := "c" },
         { id := 2, posted := "d", sender := "e", content := "f" }]) 2))
      { id := 0, posted := "g", sender := "h", content := "i" }).2.id = 2 := by
  decide

/-- C2 (amended): provided the stored ids are below i32::MAX (so `create`'s
i32 increment cannot overflow), `create`, `update` and `remove` each
preserve the invariant that all stored ids are unique positive integers;
however, an id removed by delete CAN be assigned again by a later `create`
— precisely when it equals the i32 value `max(remaining ids) + 1`, since
that is always the next created id. -/
theorem store_ops_preserve_good_ids (store : List Message) (msg : Message) (rid : Int)
    (h : goodIds store) (hsafe : ∀ m ∈ store, m.id < 2147483647) :
    goodIds (create (FileState.parsed store) msg).1 ∧
    goodIds (update (FileState.parsed store) msg) ∧
    goodIds (remove (FileState.parsed store) rid) ∧
    ((create (FileState.parsed (remove (FileState.parsed store) rid)) msg).2.id = rid →
      rid = wrap32 ((((remove (FileState.parsed store) rid).map Message.id).max?.getD 0)
        + 1)) := by
  refine ⟨goodIds_create store msg h hsafe, goodIds_update store msg h,
    goodIds_remove store rid h, ?_⟩
  intro heq
  rw [create_snd_id] at heq
  exact heq.symm

/-- Witness for C2 (amended): the invariant holds for a concrete two-record
store and is preserved by the three operations; the reassigned id equals
`max(remaining) + 1` in the counterexample scenario. -/
theorem store_ops_preserve_good_ids_witness :
    (goodIds [{ id := 1, posted := "a", sender := "b", content := "c" },
              { id := 2, posted := "d", sender := "e", content := "f" }] ∧
     ∀ m ∈ [({ id := 1, posted := "a", sender := "b", content := "c" } : Message),
            { id := 2, posted := "d", sender := "e", content := "f" }],
       m.id < 2147483647) ∧
    (goodIds (create (FileState.parsed
        [{ id := 1, posted := "a", sender := "b", content := "c" },
         { id := 2, posted := "d", sender := "e", content := "f" }])
        { id := 2, posted := "x", sender := "y", content := "z" }).1 ∧
     goodIds (update (FileState.parsed
        [{ id := 1, posted := "a", sender := "b", content := "c" },
         { id := 2, posted := "d", sender := "e", content := "f" }])
        { id := 2, posted := "x", sender := "y", content := "z" }) ∧
     goodIds (remove (FileState.parsed
        [{ id := 1, posted := "a", sender := "b", content := "c" },
         { id := 2, posted := "d", sender := "e", content := "f" }]) 2) ∧
     ((create (FileState.parsed (remove (FileState.parsed
          [{ id := 1, posted := "a", sender := "b", content := "c" },
           { id := 2, posted := "d", sender := "e", content := "f" }]) 2))
        { id := 2, posted := "x", sender := "y", content := "z" }).2.id = 2 →
        (2 : Int) = wrap32 ((((remove (FileState.parsed
          [{ id := 1, posted := "a", sender := "b", content := "c" },
           { id := 2, posted := "d", sender := "e", content := "f" }]) 2).map
            Message.id).max?.getD 0) + 1))) :=
  ⟨⟨by decide, by decide⟩,
   store_ops_preserve_good_ids
     [{ id := 1, posted := "a", sender := "b", content := "c" },
      { id := 2, posted := "d", sender := "e", content := "f" }]
     { id := 2, posted := "x", sender := "y", content := "z" } 2 (by decide) (by decide)⟩

instance : IsTotal Message postedGe :=
  ⟨fun a b => by
    by_cases h : a.posted.data < b.posted.data
    · exact Or.inr (lt_asymm h)
    · exact Or.inl h⟩

instance : IsTrans Message postedGe :=
  ⟨fun _ _ _ hab hbc =>
    not_lt.mpr (le_trans (not_lt.mp hbc) (not_lt.mp hab))⟩

/-- C4: `get_all` returns the messages ordered by the `posted` string,
descending lexicographically (adjacent results never increase in `posted`);
on the three concrete timestamps of the spec it returns the 2024-01-02
record, then 2024-01-01, then 2023-12-31. -/
theorem get_all_sorted_desc (fs : FileState) :
    (get_all fs).Pairwise (fun a b => b.posted.data ≤ a.posted.data) ∧
    get_all (FileState.parsed
      [{ id := 1, posted := "2024-01-01 10:00:00", sender := "s1", content := "c1" },
       { id := 2, posted := "2024-01-02 09:00:00", sender := "s2", content := "c2" },
       { id := 3, posted := "2023-12-31 23:59:59", sender := "s3", content := "c3" }]) =
      [{ id := 2, posted := "2024-01-02 09:00:00", sender := "s2", content := "c2" },
       { id := 1, posted := "2024-01-01 10:00:00", sender := "s1", content := "c1" },
       { id := 3, posted := "2023-12-31 23:59:59", sender := "s3", content := "c3" }] := by
  constructor
  · exact (List.sorted_insertionSort postedGe (read_messages_from_file fs)).imp
      (fun h => not_lt.mp h)
  · decide

/-- C10: `get_all` returns a permutation of the stored collection, and the
sort is stable: for every value of `posted`, the subsequence of messages
carrying that exact `posted` value is unchanged from file order. -/
theorem get_all_perm_and_stable (fs : FileState) :
    (get_all fs).Perm (read_messages_from_file fs) ∧
    ∀ pv : String, (get_all fs).filter (fun m => m.posted == pv) =
      (read_messages_from_file fs).filter (fun m => m.posted == pv) := by
  constructor
  · exact List.perm_insertionSort postedGe (read_messages_from_file fs)
  · intro pv
    set l := read_messages_from_file fs with hl
    set c := l.filter (fun m => m.posted == pv) with hc
    have hcmem : ∀ m ∈ c, m.posted = pv := by
      intro m hm
      have := List.of_mem_filter hm
      simpa using this
    have hpair : c.Pairwise postedGe := by
      apply List.pairwise_of_forall_mem_list
      intro a ha b hb
      have h1 := hcmem a ha
      have h2 := hcmem b hb
      show ¬ a.posted.data < b.posted.data
      rw [h1, h2]
      exact lt_irrefl _
    have hbig : List.Sublist c (get_all fs) :=
      List.sublist_insertionSort hpair (List.filter_sublist l)
    have hfix : c.filter (fun m => m.posted == pv) = c := by
      rw [List.filter_eq_self]
      intro a ha
      simpa using hcmem a ha
    have hsub : List.Sublist c ((get_all fs).filter (fun m => m.posted == pv)) := by
      have := hbig.filter (fun m => m.posted == pv)
      rwa [hfix] at this
    have hlen : ((get_all fs).filter (fun m => m.posted == pv)).length = c.length := by
      have hperm := (List.perm_insertionSort postedGe l).filter (fun m => m.posted == pv)
      exact hperm.length_eq
    exact (hsub.eq_of_length hlen.symm).symm

lemma find?_eq_some_get_of_first {p : Message → Bool} :
    ∀ (l : List Message) (i : Nat) (h : i < l.length),
      p (l.get ⟨i, h⟩) = true →
      (∀ j (hj : j < i), p (l.get ⟨j, Nat.lt_trans hj h⟩) = false) →
      l.find? p = some (l.get ⟨i, h⟩)
  | a :: _, 0, _, hp, _ => by
      rw [List.find?_cons_of_pos _ (by simpa using hp)]
      rfl
  | a :: t, i + 1, h, hp, hfirst => by
      have h0 : p a = false := by
        simpa using hfirst 0 (Nat.succ_pos i)
      rw [List.find?_cons_of_neg _ (by simp [h0])]
      have ht := find?_eq_some_get_of_first t i (Nat.lt_of_succ_lt_succ h)
        (by simpa using hp)
        (fun j hj => by simpa using hfirst (j + 1) (Nat.succ_lt_succ hj))
      simpa using ht

/-- C5: `get` returns the first record in load order whose id matches, and
the zero-valued default `Message` when no record matches — never an error. -/
theorem get_first_match_or_default (fs : FileState) (mid : Int) :
    ((∀ m ∈ read_messages_from_file fs, m.id ≠ mid) → get fs mid = Message.default) ∧
    (∀ i (h : i < (read_messages_from_file fs).length),
      ((read_messages_from_file fs).get ⟨i, h⟩).id = mid →
      (∀ j (hj : j < i),
        ((read_messages_from_file fs).get ⟨j, Nat.lt_trans hj h⟩).id ≠ mid) →
      get fs mid = (read_messages_from_file fs).get ⟨i, h⟩) := by
  constructor
  · intro h
    have hnone : (read_messages_from_file fs).find? (fun m => m.id == mid) = none := by
      rw [List.find?_eq_none]
      intro x hx
      simpa using h x hx
    rw [get, hnone]
    rfl
  · intro i h hmatch hfirst
    have hsome := find?_eq_some_get_of_first (p := fun m => m.id == mid)
      (read_messages_from_file fs) i h
      (by simpa using hmatch) (fun j hj => by simpa using hfirst j hj)
    rw [get, hsome]
    rfl

/-- Witness for C5: a miss on a two-record store returns the default
message; a hit on id 2 returns the matching record. -/
theorem get_first_match_or_default_witness :
    get (FileState.parsed [{ id := 1, posted := "a", sender := "b", content := "c" },
        { id := 2, posted := "d", sender := "e", content := "f" }]) 5 = Message.default ∧
    get (FileState.parsed [{ id := 1, posted := "a", sender := "b", content := "c" },
        { id := 2, posted := "d", sender := "e", content := "f" }]) 2 =
      { id := 2, posted := "d", sender := "e", content := "f" } :=
  by
  constructor
  · exact (get_first_match_or_default _ 5).1 (by decide)
  · have key := (get_first_match_or_default
        (FileState.parsed [{ id := 1, posted := "a", sender := "b", content := "c" },
          { id := 2, posted := "d", sender := "e", content := "f" }]) 2).2 1
      (by simp [read_messages_from_file])
      (by simp [read_messages_from_file])
      (fun j hj => by
        have hj0 : j = 0 := by omega
        subst hj0
        simp [read_messages_from_file])
    simpa [read_messages_from_file] using key

/-- C6: `update` replaces in place the first stored record whose id equals
the input's id and persists; when no id matches, the collection is left
unchanged and no error is raised. -/
theorem update_replaces_first_or_noop (fs : FileState) (msg : Message) :
    ((∀ m ∈ read_messages_from_file fs, m.id ≠ msg.id) →
      update fs msg = read_messages_from_file fs) ∧
    (∀ i (h : i < (read_messages_from_file fs).length),
      ((read_messages_from_file fs).get ⟨i, h⟩).id = msg.id →
      (∀ j (hj : j < i),
        ((read_messages_from_file fs).get ⟨j, Nat.lt_trans hj h⟩).id ≠ msg.id) →
      update fs msg = (read_messages_from_file fs).set i msg) :=
  ⟨update_of_no_match fs msg,
   fun i h hmatch hfirst => update_of_first_match fs msg i h hmatch hfirst⟩

/-- Witness for C6: updating a missing id leaves the store unchanged;
updating id 2 replaces exactly that record. -/
theorem update_replaces_first_or_noop_witness :
    update (FileState.parsed [{ id := 1, posted := "a", sender := "b", content := "c" }])
        { id := 9, posted := "x", sender := "y", content := "z" } =
      [{ id := 1, posted := "a", sender := "b", content := "c" }] ∧
    update (FileState.parsed [{ id := 1, posted := "a", sender := "b", content := "c" },
        { id := 2, posted := "d", sender := "e", content := "f" }])
        { id := 2, posted := "x", sender := "y", content := "z" } =
      [{ id := 1, posted := "a", sender := "b", content := "c" },
       { id := 2, posted := "x", sender := "y", content := "z" }] :=
  by
  constructor
  · exact (update_replaces_first_or_noop _ _).1 (by decide)
  · have key := (update_replaces_first_or_noop
        (FileState.parsed [{ id := 1, posted := "a", sender := "b", content := "c" },
          { id := 2, posted := "d", sender := "e", content := "f" }])
        { id := 2, posted := "x", sender := "y", content := "z" }).2 1
      (by simp [read_messages_from_file])
      (by simp [read_messages_from_file])
      (fun j hj => by
        have hj0 : j = 0 := by omega
        subst hj0
        simp [read_messages_from_file])
    simpa [read_messages_from_file] using key

/-- C7: `remove` deletes exactly the records whose id matches, keeps every
other record in order, is a silent no-op on a non-existent id, and is
idempotent. -/
theorem remove_filters_matching (fs : FileState) (rid : Int) :
    (∀ m ∈ remove fs rid, m ∈ read_messages_from_file fs ∧ m.id ≠ rid) ∧
    (∀ m ∈ read_messages_from_file fs, m.id ≠ rid → m ∈ remove fs rid) ∧
    List.Sublist (remove fs rid) (read_messages_from_file fs) ∧
    ((∀ m ∈ read_messages_from_file fs, m.id ≠ rid) →
      remove fs rid = read_messages_from_file fs) ∧
    remove (FileState.parsed (remove fs rid)) rid = remove fs rid := by
  refine ⟨?_, ?_, remove_sublist fs rid, ?_, ?_⟩
  · intro m hm
    refine ⟨List.mem_of_mem_filter hm, ?_⟩
    simpa using List.of_mem_filter hm
  · intro m hm hne
    exact List.mem_filter.mpr ⟨hm, by simpa using hne⟩
  · intro h
    rw [remove, List.filter_eq_self]
    intro a ha
    simpa using h a ha
  · show (remove fs rid).filter (fun item => item.id != rid) = remove fs rid
    rw [List.filter_eq_self]
    intro a ha
    exact List.of_mem_filter (p := fun (item : Message) => item.id != rid) ha

/-- Witness for C7: removing the absent id 9 from a one-record store leaves
it unchanged. -/
theorem remove_filters_matching_witness :
    remove (FileState.parsed [{ id := 1, posted := "a", sender := "b", content := "c" }]) 9 =
      [{ id := 1, posted := "a", sender := "b", content := "c" }] :=
  (remove_filters_matching _ 9).2.2.2.1 (by decide)

/-- C8: `build_response` serializes to XML exactly when the format token is
`"xml"`; an absent token or any other token falls back to JSON, and no token
produces an error. -/
theorem build_response_format (response : ApiResponse) :
    build_response (some "xml") response = SerializedBody.xml response ∧
    build_response none response = SerializedBody.json response ∧
    (∀ tok : String, tok ≠ "xml" →
      build_response (some tok) response = SerializedBody.json response) := by
  refine ⟨rfl, rfl, ?_⟩
  intro tok h
  simp only [build_response, Option.map_some', Option.getD_some]

/-- Witness for C8: the unrecognized token `"yaml"` falls back to JSON. -/
theorem build_response_format_witness :
    build_response (some "yaml") { status := "OK", result := ResponseContent.None } =
      SerializedBody.json { status := "OK", result := ResponseContent.None } :=
  (build_response_format _).2.2 "yaml" (by decide)

/-- C9: the update API always answers with status `"OK"` and the input
message echoed as a JSON `Item`, whether or not the id exists in the store;
when the id is absent the store is untouched and still no error appears. -/
theorem api_update_always_ok (fs : FileState) (params : Message) :
    (api_update fs params).2 =
      SerializedBody.json { status := "OK", result := ResponseContent.Item params } ∧
    ((∀ m ∈ read_messages_from_file fs, m.id ≠ params.id) →
      (api_update fs params).1 = read_messages_from_file fs) := by
  constructor
  · rfl
  · intro h
    exact update_of_no_match fs _ h

/-- Witness for C9: updating id 3 against the empty store answers OK with
the echoed message and leaves the store empty. -/
theorem api_update_always_ok_witness :
    (api_update (FileState.parsed [])
        { id := 3, posted := "p", sender := "s", content := "c" }).2 =
      SerializedBody.json
        ⟨"OK", ResponseContent.Item ⟨3, "p", "s", "c"⟩⟩ ∧
    (api_update (FileState.parsed [])
        { id := 3, posted := "p", sender := "s", content := "c" }).1 = [] :=
  ⟨(api_update_always_ok _ _).1, (api_update_always_ok _ _).2 (by decide)⟩

end ActixPosts
